import Mathlib

/-!
# Verification of `utils/util_mesh.py` (building_tools)

A shallow embedding of the mesh utilities in `src/utils/util_mesh.py`.
Coordinates are modelled as exact rationals (`ℚ`); Python's float
`round(x, n)` is modelled as rounding `x · 10ⁿ` to the nearest integer
(half up; the half-to-even difference is irrelevant to every property
proved here).  The external `bmesh` mutation primitives (subdivide,
scale, translate, remove_doubles), which the spec lists as out-of-scope
collaborators, are modelled from the spec's description of them; each
such definition carries a `Modelled from the spec:` comment.
-/

namespace UtilMesh

/-- A 3-component vector of exact rational coordinates
(model of `mathutils.Vector`). -/
structure Vec3 where
  x : ℚ
  y : ℚ
  z : ℚ
  deriving DecidableEq, Repr

def Vec3.add (a b : Vec3) : Vec3 := ⟨a.x + b.x, a.y + b.y, a.z + b.z⟩

def Vec3.sub (a b : Vec3) : Vec3 := ⟨a.x - b.x, a.y - b.y, a.z - b.z⟩

/-- Componentwise division by a scalar. -/
def Vec3.divScalar (a : Vec3) (q : ℚ) : Vec3 := ⟨a.x / q, a.y / q, a.z / q⟩

/-- Componentwise product (used for per-axis scale vectors). -/
def Vec3.mulComp (a b : Vec3) : Vec3 := ⟨a.x * b.x, a.y * b.y, a.z * b.z⟩

/-- Cross product (model of `mathutils.Vector.cross`). -/
def Vec3.cross (a b : Vec3) : Vec3 :=
  ⟨a.y * b.z - a.z * b.y, a.z * b.x - a.x * b.z, a.x * b.y - a.y * b.x⟩

/-- A mesh vertex: a stable identity plus a coordinate
(model of `BMVert`; Python compares verts by object identity, which the
`id` field stands for). -/
structure Vert where
  id : ℕ
  co : Vec3
  deriving DecidableEq, Repr

/-- A mesh edge: exactly two vertices (model of `BMEdge`). -/
structure Edge where
  a : Vert
  b : Vert
  deriving DecidableEq, Repr

/-- The vertex pair of an edge, as the `e.verts` sequence. -/
def Edge.verts (e : Edge) : List Vert := [e.a, e.b]

/-- Model of Python's `round(q, n)`: round `q·10ⁿ` to the nearest
integer (ties upward) and scale back. -/
def roundQ (n : ℕ) (q : ℚ) : ℚ :=
  ((⌊q * 10 ^ n + 1 / 2⌋ : ℤ) : ℚ) / 10 ^ n

/-- Embedding of `filter_vertical_edges(edges, normal)` from the source: keep the
edges whose verts collapse, after rounding to 4 decimals, to a single
value of the branch-selected coordinate (`x` when `normal.z` is truthy,
`x` again when `normal.y` is truthy, else `y`). -/
def filter_vertical_edges : List Edge → Vec3 → List Edge
  | [], _ => []
  | e :: es, normal =>
    let s : List ℚ :=
      if normal.z ≠ 0 then (e.verts.map (fun v => roundQ 4 v.co.x)).dedup
      else if normal.y ≠ 0 then (e.verts.map (fun v => roundQ 4 v.co.x)).dedup
      else (e.verts.map (fun v => roundQ 4 v.co.y)).dedup
    if s.length = 1 then e :: filter_vertical_edges es normal
    else filter_vertical_edges es normal

/-- Embedding of `filter_horizontal_edges(edges, normal)` from the source: same loop,
comparing `y` (z-normal), `z` (y-normal) or `z` (otherwise). -/
def filter_horizontal_edges : List Edge → Vec3 → List Edge
  | [], _ => []
  | e :: es, normal =>
    let s : List ℚ :=
      if normal.z ≠ 0 then (e.verts.map (fun v => roundQ 4 v.co.y)).dedup
      else if normal.y ≠ 0 then (e.verts.map (fun v => roundQ 4 v.co.z)).dedup
      else (e.verts.map (fun v => roundQ 4 v.co.z)).dedup
    if s.length = 1 then e :: filter_horizontal_edges es normal
    else filter_horizontal_edges es normal

/-- Embedding of `calc_edge_orient(edge)` from the source: collapse the verts'
coordinates rounded to 1 decimal and branch exactly as the code does
(first branch: `x` or `y` collapses). -/
def calc_edge_orient (e : Edge) : Vec3 :=
  let x_coords := (e.verts.map (fun v => roundQ 1 v.co.x)).dedup
  let y_coords := (e.verts.map (fun v => roundQ 1 v.co.y)).dedup
  let z_coords := (e.verts.map (fun v => roundQ 1 v.co.z)).dedup
  if x_coords.length = 1 ∨ y_coords.length = 1 then ⟨0, 0, 1⟩
  else if z_coords.length = 1 ∧ y_coords.length = 1 then ⟨1, 0, 0⟩
  else if z_coords.length = 1 ∧ x_coords.length = 1 then ⟨0, 1, 0⟩
  else ⟨0, 0, 0⟩

/-- The coordinate the spec's axis-selection table picks for vertical
classification: `x` for a z-normal, `x` again for a y-normal, else `y`. -/
def verticalAxisCoord (normal : Vec3) (v : Vert) : ℚ :=
  if normal.z ≠ 0 then v.co.x
  else if normal.y ≠ 0 then v.co.x
  else v.co.y

/-- Largest `k ≤ bound` with `k * k ≤ n` (structural linear search). -/
def natSqrtAux : ℕ → ℕ → ℕ
  | 0, _ => 0
  | k + 1, n => if (k + 1) * (k + 1) ≤ n then k + 1 else natSqrtAux k n

/-- Integer square root: the largest `k` with `k * k ≤ n`. -/
def natSqrt (n : ℕ) : ℕ := natSqrtAux n n

/-- Exact rational square root used to model the float edge lengths of
`e.calc_length()`: exact whenever numerator and denominator are perfect
squares, which covers every length arising in the properties below. -/
def sqrtQ (q : ℚ) : ℚ := (natSqrt q.num.toNat : ℚ) / (natSqrt q.den : ℚ)

/-- Squared Euclidean norm. -/
def Vec3.normSq (a : Vec3) : ℚ := a.x ^ 2 + a.y ^ 2 + a.z ^ 2

/-- Embedding of `e.calc_length()`: the Euclidean distance between the edge's verts. -/
def Edge.calc_length (e : Edge) : ℚ := sqrtQ ((e.a.co.sub e.b.co).normSq)

/-- Embedding of `calc_edge_median(edge)` from the source: sum of the two vert
positions divided by the vert count. -/
def calc_edge_median (e : Edge) : Vec3 := (e.a.co.add e.b.co).divScalar 2

/-- Embedding of `calc_verts_median(verts)` from the source: sum of positions
divided by the count (callers guarantee a non-empty input, per §7). -/
def calc_verts_median (verts : List Vert) : Vec3 :=
  (verts.foldl (fun (a : Vec3) (v : Vert) => a.add v.co) ⟨0, 0, 0⟩).divScalar (verts.length : ℚ)

/-- A mesh face: a stable identity, its ordered vert loop, its stored
normal and its selection flag (model of `BMFace`). -/
structure Face where
  id : ℕ
  verts : List Vert
  normal : Vec3
  select : Bool
  deriving DecidableEq, Repr

/-- The boundary edge loop of a face: consecutive vert pairs, wrapping
around (model of `face.edges` for a loop-ordered `BMFace`). -/
def Face.edges (f : Face) : List Edge :=
  match f.verts with
  | [] => []
  | v :: vs => ((v :: vs).zip (vs ++ [v])).map (fun p => ⟨p.1, p.2⟩)

/-- The editable mesh buffer: vert/edge/face collections plus a counter
for fresh vert identities (model of the `bmesh` buffer `bm`). -/
structure Mesh where
  verts : List Vert
  edges : List Edge
  faces : List Face
  nextId : ℕ
  deriving DecidableEq, Repr

/-- Embedding of `calc_face_dimensions(face)` from the source: width by the normal's
x/y components (span of `y`, span of `x`, diagonal distance, or 0) and
height as the span of `z`. -/
def calc_face_dimensions (face : Face) : ℚ × ℚ :=
  let xs := face.verts.map (fun v => v.co.x)
  let ys := face.verts.map (fun v => v.co.y)
  let zs := face.verts.map (fun v => v.co.z)
  let width :=
    if face.normal.x ≠ 0 ∧ face.normal.y = 0 then ys.max?.getD 0 - ys.min?.getD 0
    else if face.normal.y ≠ 0 ∧ face.normal.x = 0 then xs.max?.getD 0 - xs.min?.getD 0
    else if face.normal.x ≠ 0 ∧ face.normal.y ≠ 0 then
      let v1 := ((face.verts.find? (fun v => v.co.x = xs.max?.getD 0)).getD ⟨0, ⟨0, 0, 0⟩⟩).co
      let v2 := ((face.verts.find? (fun v => v.co.x = xs.min?.getD 0)).getD ⟨0, ⟨0, 0, 0⟩⟩).co
      sqrtQ ((v1.sub v2).normSq)
    else 0
  (width, zs.max?.getD 0 - zs.min?.getD 0)

/-- Update a vert's coordinate when its identity is in `ids` (the
live-reference semantics of mutating a `BMVert` shared by the mesh, its
edges and its faces). -/
def Vert.mapIf (ids : List ℕ) (f : Vec3 → Vec3) (v : Vert) : Vert :=
  if v.id ∈ ids then { v with co := f v.co } else v

/-- Apply a coordinate update to the targeted verts everywhere they are
referenced in the mesh. -/
def Mesh.mapCo (m : Mesh) (ids : List ℕ) (f : Vec3 → Vec3) : Mesh :=
  { m with
    verts := m.verts.map (Vert.mapIf ids f)
    edges := m.edges.map (fun e => ⟨Vert.mapIf ids f e.a, Vert.mapIf ids f e.b⟩)
    faces := m.faces.map (fun fc => { fc with verts := fc.verts.map (Vert.mapIf ids f) }) }

/-- Modelled from the spec: the external primitive `scale(vertex_set,
axis_vector, pivot_transform)` with the pivot transform
`Matrix.Translation(-pivot)`, i.e. translate to the pivot, scale each
axis, translate back (glossary, "Pivot transform"). -/
def scale_verts (m : Mesh) (vs : List Vert) (vec : Vec3) (pivot : Vec3) : Mesh :=
  m.mapCo (vs.map Vert.id) (fun c => ((c.sub pivot).mulComp vec).add pivot)

/-- Modelled from the spec: the external primitive
`translate(vertex_set, offset_vector)`. -/
def translate_verts (m : Mesh) (vs : List Vert) (vec : Vec3) : Mesh :=
  m.mapCo (vs.map Vert.id) (fun c => c.add vec)

/-- Embedding of `square_face(bm, face)` from the source.  `none` models the Python
exceptions (the `ZeroDivisionError` on a zero minimum edge length, and
`max`/`min` on an edgeless face); otherwise the scale factor is
returned together with the mesh scaled about the face's median. -/
def square_face (bm : Mesh) (face : Face) : Option (ℚ × Mesh) :=
  match (face.edges.map Edge.calc_length).max?, (face.edges.map Edge.calc_length).min? with
  | some max_length, some min_length =>
    if min_length = 0 then none
    else
      let scale_factor := max_length / min_length
      match (face.edges.filter (fun e => e.calc_length = min_length)).getLast? with
      | none => none
      | some min_edge =>
        let scale_vec : Vec3 :=
          if calc_edge_orient min_edge = ⟨1, 0, 0⟩ then ⟨scale_factor, 1, 1⟩
          else if calc_edge_orient min_edge = ⟨0, 1, 0⟩ then ⟨1, scale_factor, 1⟩
          else if calc_edge_orient min_edge = ⟨0, 0, 1⟩ then ⟨1, 1, scale_factor⟩
          else ⟨1, 1, 1⟩
        let fc := calc_verts_median face.verts
        some (scale_factor, scale_verts bm face.verts scale_vec fc)
  | _, _ => none

/-- Embedding of `face_with_verts(bm, verts, default)` from the source: the first
face for which `len(set(list(face.verts) + verts)) == len(verts)`;
Python's `set` of `BMVert` compares object identity, modelled by the
vert `id`. -/
def face_with_verts (bm : Mesh) (verts : List Vert) (default : Option Face) : Option Face :=
  match bm.faces.find? (fun f => (((f.verts ++ verts).map Vert.id).dedup).length = verts.length) with
  | some f => some f
  | none => default

/-- Mixed geometry element as returned by the subdivide primitive. -/
inductive Geom where
  | vert (v : Vert)
  | edge (e : Edge)
  deriving DecidableEq, Repr

/-- The subdivide primitive's result descriptor (`sp_res`), holding the
newly created interior geometry. -/
structure SubdivideResult where
  geom_inner : List Geom
  deriving DecidableEq, Repr

/-- Embedding of `filter_geom(geom, BMVert)` from the source, with the result
projected to the vertex type it filters for. -/
def filter_geom_verts (g : List Geom) : List Vert :=
  g.filterMap (fun x => match x with | .vert v => some v | .edge _ => none)

/-- The point a fraction `t` of the way from `a` to `b`. -/
def Vec3.lerp (a b : Vec3) (t : ℚ) : Vec3 :=
  ⟨a.x + (b.x - a.x) * t, a.y + (b.y - a.y) * t, a.z + (b.z - a.z) * t⟩

/-- Modelled from the spec: the external primitive
`subdivide(edge_set, cuts)` "splits each edge into cuts+1 segments,
returns newly created interior/boundary geometry"; the new evenly
spaced verts are the returned inner geometry (§4.5: "the newly created
'inner' vertex ring is the interior cut line").  Face loops are left
untouched: the spec does not describe the kernel's face rebuilding and
no property proved here depends on it. -/
def subdivide_edges (m : Mesh) (es : List Edge) (cuts : ℕ) : Mesh × SubdivideResult :=
  es.foldl
    (fun acc e =>
      let m0 := acc.1
      let newVerts := (List.range cuts).map
        (fun i => Vert.mk (m0.nextId + i)
          (Vec3.lerp e.a.co e.b.co (((i : ℚ) + 1) / ((cuts : ℚ) + 1))))
      let chain := e.a :: (newVerts ++ [e.b])
      let segs := (chain.zip chain.tail).map (fun p => Edge.mk p.1 p.2)
      let m1 : Mesh :=
        { verts := m0.verts ++ newVerts
          edges := (m0.edges.filter (fun e2 => e2 ≠ e)) ++ segs
          faces := m0.faces
          nextId := m0.nextId + cuts }
      (m1, ⟨acc.2.geom_inner ++ newVerts.map Geom.vert⟩))
    (m, ⟨[]⟩)

/-- Modelled from the spec: the external primitive
`merge_near(vertex_set, epsilon)` "collapses mutually-near vertices";
the source invokes it with the kernel's default zero distance, so
exactly-coincident verts of the given set collapse onto the first vert
with that coordinate, and every reference is remapped. -/
def remove_doubles (m : Mesh) (vs : List Vert) : Mesh :=
  let rep : Vert → Vert := fun v =>
    if v ∈ vs then (vs.find? (fun w => w.co = v.co)).getD v else v
  { verts := (m.verts.map rep).dedup
    edges := m.edges.map (fun e => ⟨rep e.a, rep e.b⟩)
    faces := m.faces.map (fun f => { f with verts := f.verts.map rep })
    nextId := m.nextId }

/-- Effect of `face.select = False` on the input face, as seen by the mesh. -/
def deselect_face (m : Mesh) (fid : ℕ) : Mesh :=
  { m with faces := m.faces.map (fun f => if f.id = fid then { f with select := false } else f) }

/-- Embedding of `v.link_edges`: the mesh edges incident to the vert. -/
def link_edges (m : Mesh) (v : Vert) : List Edge :=
  m.edges.filter (fun e => v ∈ e.verts)

/-- One invocation of an external mutation primitive, with its
arguments as they were at call time. -/
inductive Op where
  | subdivideEdges (edges : List Edge) (cuts : ℕ)
  | scale (vec : Vec3) (verts : List Vert) (pivot : Vec3)
  | removeDoubles (verts : List Vert)
  | translate (verts : List Vert) (vec : Vec3)
  deriving DecidableEq, Repr

/-- One recorded `bmesh.ops.subdivide_edges` call of `split_quad`. -/
structure SubdivideEntry where
  edges : List Edge
  cuts : ℕ
  res : SubdivideResult
  deriving DecidableEq, Repr

/-- The body of `split_quad`'s loop over the selected faces: thread the
mesh, overwrite `res` with each subdivide result, record each call. -/
def split_quad_loop (vertical : Bool) (cuts : ℕ) :
    List Face → Mesh → Option SubdivideResult → List SubdivideEntry →
      Mesh × Option SubdivideResult × List SubdivideEntry
  | [], m, res, tr => (m, res, tr)
  | face :: fs, m, _, tr =>
    let e := if vertical then filter_horizontal_edges face.edges face.normal
             else filter_vertical_edges face.edges face.normal
    let r := subdivide_edges m e cuts
    split_quad_loop vertical cuts fs r.1 (some r.2) (tr ++ [⟨e, cuts, r.2⟩])

/-- Embedding of `split_quad(vertical, cuts)` from the source, over an explicit mesh
handle (§9).  `.error` models the `UnboundLocalError` raised at
`return res` when no face is selected. -/
def split_quad (m : Mesh) (vertical : Bool) (cuts : ℕ) :
    Except String (Mesh × SubdivideResult) × List SubdivideEntry :=
  let faces := m.faces.filter (fun f => f.select)
  let out := split_quad_loop vertical cuts faces m none []
  match out.2.1 with
  | none => (.error "UnboundLocalError", out.2.2)
  | some r => (.ok (out.1, r), out.2.2)

/-- The outcome of `split`: the final mesh, the returned face (`.error`
models a raised exception), and the trace of primitive invocations. -/
structure SplitRes where
  bm : Mesh
  result : Except String (Option Face)
  trace : List Op
  deriving Repr

/-- The horizontal pass of `split`: filter the edges whose verts share
the `z` coordinate rounded to 1 decimal, subdivide them with 2 cuts,
and scale the inner verts about the median by the vector derived from
`normal × (0,0,1)` (each axis: `abs(component) * shorizontal` when the
component is truthy, else 1). -/
def split_h_stage (bm : Mesh) (face : Face) (sh : ℚ) (median : Vec3) :
    Mesh × List Vert × List Op :=
  let horizontal := face.edges.filter
    (fun e => ((e.verts.map (fun v => roundQ 1 v.co.z)).dedup).length = 1)
  let sp := subdivide_edges bm horizontal 2
  let verts := filter_geom_verts sp.2.geom_inner
  let sv := face.normal.cross ⟨0, 0, 1⟩
  let scale_vector : Vec3 :=
    ⟨if sv.x ≠ 0 then |sv.x| * sh else 1,
     if sv.y ≠ 0 then |sv.y| * sh else 1,
     if sv.z ≠ 0 then |sv.z| * sh else 1⟩
  (scale_verts sp.1 verts scale_vector median, verts,
   [Op.subdivideEdges horizontal 2, Op.scale scale_vector verts median])

/-- The vertical pass of `split`: the complement of the flat-`z` edges
(the Python enumerates `set(face.edges) - set(other)` in arbitrary set
order; modelled as the order-preserving complement), subdivided with 2
cuts, the inner verts scaled along `z` by `svertical` about the
median. -/
def split_v_stage (bm : Mesh) (face : Face) (sv : ℚ) (median : Vec3) :
    Mesh × List Vert × List Op :=
  let other := face.edges.filter
    (fun e => ((e.verts.map (fun v => roundQ 1 v.co.z)).dedup).length = 1)
  let vertical := face.edges.filter (fun e => e ∉ other)
  let sp := subdivide_edges bm vertical 2
  let verts := filter_geom_verts sp.2.geom_inner
  (scale_verts sp.1 verts ⟨1, 1, sv⟩ median, verts,
   [Op.subdivideEdges vertical 2, Op.scale ⟨1, 1, sv⟩ verts median])

/-- The offset section of `split` and its final vertex-set lookup:
translate the one-ring of the inner verts by `(offx, offy, 0)` when
both passes ran, just the inner verts when only the horizontal pass
ran; always translate the inner verts by `(0, 0, offz)`; re-resolve the
returned face with `face_with_verts`. -/
def split_offsets (bm : Mesh) (verts : List Vert) (tr : List Op)
    (do_h do_v : Prop) [Decidable do_h] [Decidable do_v]
    (offx offy offz : ℚ) : SplitRes :=
  let st1 :=
    if do_h ∧ do_v then
      let le := (verts.map (link_edges bm)).flatten
      let all_verts := ((le.map Edge.verts).flatten).dedup
      (translate_verts bm all_verts ⟨offx, offy, 0⟩,
       tr ++ [Op.translate all_verts ⟨offx, offy, 0⟩])
    else if do_h ∧ ¬do_v then
      (translate_verts bm verts ⟨offx, offy, 0⟩,
       tr ++ [Op.translate verts ⟨offx, offy, 0⟩])
    else (bm, tr)
  let bm2 := translate_verts st1.1 verts ⟨0, 0, offz⟩
  ⟨bm2, .ok (face_with_verts bm2 verts none), st1.2 ++ [Op.translate verts ⟨0, 0, offz⟩]⟩

/-- Embedding of `split(bm, face, svertical, shorizontal, offx, offy, offz)` from
the source: triple both ratios, decide each pass by comparing the
tripled ratio with the scale constant 3, deselect the face, and run the
horizontal pass, the merge + re-resolution + vertical pass, and the
offset section.  `.error` models the `AttributeError` the Python would
raise when the mid-split re-resolution returns `None` and `face.edges`
is then accessed. -/
def split (bm : Mesh) (face : Face) (svertical shorizontal : ℚ)
    (offx offy offz : ℚ) : SplitRes :=
  let scale : ℚ := 3
  let sv := svertical * scale
  let sh := shorizontal * scale
  let do_vertical := sv < scale
  let do_horizontal := sh < scale
  let bm0 := deselect_face bm face.id
  let face0 : Face := { face with select := false }
  let median := calc_verts_median face0.verts
  if ¬do_horizontal ∧ ¬do_vertical then ⟨bm0, .ok (some face0), []⟩
  else
    let hst := if do_horizontal then split_h_stage bm0 face0 sh median else (bm0, [], [])
    if do_vertical then
      let rd := remove_doubles hst.1 hst.1.verts
      let tr1 := hst.2.2 ++ [Op.removeDoubles hst.1.verts]
      let face1? := if do_horizontal then face_with_verts rd hst.2.1 none else some face0
      match face1? with
      | none => ⟨rd, .error "AttributeError", tr1⟩
      | some face1 =>
        let vst := split_v_stage rd face1 sv median
        split_offsets vst.1 vst.2.1 (tr1 ++ vst.2.2) do_horizontal do_vertical offx offy offz
    else
      split_offsets hst.1 hst.2.1 hst.2.2 do_horizontal do_vertical offx offy offz

end UtilMesh

namespace UtilMesh

/-- The `set(...)` of a two-element collection has one element exactly
when the two elements agree. -/
theorem length_dedup_pair_eq_one {α : Type} [DecidableEq α] (x y : α) :
    ([x, y].dedup).length = 1 ↔ x = y := by
  by_cases h : x = y <;> simp [List.dedup_cons_of_mem, List.dedup_cons_of_not_mem, h]

/-- The per-edge condition of `filter_vertical_edges` is the shared
rounded coordinate of the axis-selection table. -/
theorem filter_vertical_cond (normal : Vec3) (e : Edge) :
    ((if normal.z ≠ 0 then (e.verts.map (fun v => roundQ 4 v.co.x)).dedup
      else if normal.y ≠ 0 then (e.verts.map (fun v => roundQ 4 v.co.x)).dedup
      else (e.verts.map (fun v => roundQ 4 v.co.y)).dedup).length = 1) ↔
      roundQ 4 (verticalAxisCoord normal e.a) = roundQ 4 (verticalAxisCoord normal e.b) := by
  by_cases hz : normal.z = 0 <;> by_cases hy : normal.y = 0 <;>
    simp [Edge.verts, verticalAxisCoord, hz, hy, length_dedup_pair_eq_one]

/-- C8: `filter_vertical_edges` returns exactly the edges whose two
verts agree, after rounding to 4 decimal places, on the coordinate the
axis-selection table picks: `x` when `normal.z` is non-zero, `x` again
when `normal.z` is zero but `normal.y` is non-zero, and `y` otherwise. -/
theorem filter_vertical_edges_axis_table (edges : List Edge) (normal : Vec3) :
    filter_vertical_edges edges normal =
      edges.filter (fun e =>
        decide (roundQ 4 (verticalAxisCoord normal e.a) =
          roundQ 4 (verticalAxisCoord normal e.b))) := by
  induction edges with
  | nil => rfl
  | cons e es ih =>
    simp only [filter_vertical_edges, List.filter_cons]
    by_cases hr : roundQ 4 (verticalAxisCoord normal e.a) =
        roundQ 4 (verticalAxisCoord normal e.b)
    · rw [if_pos ((filter_vertical_cond normal e).mpr hr), ih]
      simp [hr]
    · rw [if_neg (fun h => hr ((filter_vertical_cond normal e).mp h)), ih]
      simp [hr]

/-- C3 (code-bug evidence): on the X-aligned edge (0,0,0)–(1,0,0) the
code returns (0,0,1) where the spec's per-axis classification demands
(1,0,0); structurally, the first branch of `calc_edge_orient` already
fires whenever `x` or `y` collapses, so the function can only ever
return (0,0,1) or (0,0,0) — its (1,0,0) and (0,1,0) branches are
unreachable. -/
theorem calc_edge_orient_bug :
    calc_edge_orient ⟨⟨0, ⟨0, 0, 0⟩⟩, ⟨1, ⟨1, 0, 0⟩⟩⟩ = ⟨0, 0, 1⟩ ∧
    ∀ e : Edge, calc_edge_orient e = ⟨0, 0, 1⟩ ∨ calc_edge_orient e = ⟨0, 0, 0⟩ := by
  constructor
  · norm_num [calc_edge_orient, Edge.verts, length_dedup_pair_eq_one, roundQ]
  · intro e
    simp only [calc_edge_orient]
    by_cases h : ((e.verts.map (fun v => roundQ 1 v.co.x)).dedup).length = 1 ∨
        ((e.verts.map (fun v => roundQ 1 v.co.y)).dedup).length = 1
    · left
      rw [if_pos h]
    · right
      rw [if_neg h, if_neg (fun hc => (not_or.mp h).2 hc.2),
        if_neg (fun hc => (not_or.mp h).1 hc.2)]

/-- Vertices shared by the concrete example meshes below. -/
def vA : Vert := ⟨0, ⟨0, 0, 0⟩⟩

def vB : Vert := ⟨1, ⟨1, 0, 0⟩⟩

def vC : Vert := ⟨2, ⟨0, 1, 0⟩⟩

def vD : Vert := ⟨3, ⟨5, 5, 5⟩⟩

/-- A triangular face in the XY plane, not selected. -/
def triFace : Face := ⟨0, [vA, vB, vC], ⟨0, 0, 1⟩, false⟩

/-- A mesh holding just `triFace`. -/
def triMesh : Mesh := ⟨[vA, vB, vC], triFace.edges, [triFace], 3⟩

/-- C2 (counterexample): `face_with_verts` can return a face whose
vertex set is NOT a superset of the given list — the code's test
`len(set(face.verts + verts)) == len(verts)` accepts any face whose
verts are contained in the list, here a triangle queried with its three
verts plus a fourth vert `vD` that the face does not contain. -/
theorem face_with_verts_superset_ce :
    face_with_verts triMesh [vA, vB, vC, vD] none = some triFace ∧
    vD ∈ [vA, vB, vC, vD] ∧ vD ∉ triFace.verts := by
  refine ⟨?_, by simp, by decide⟩
  decide

/-- C2 (amended): when `face_with_verts` finds a face (default `none`,
duplicate-free vert list), that face's vertex set is a SUBSET of the
given list: every vert of the returned face occurs (by identity) among
the given verts. -/
theorem face_with_verts_subset (bm : Mesh) (verts : List Vert) (f : Face)
    (hnd : (verts.map Vert.id).Nodup)
    (hf : face_with_verts bm verts none = some f) :
    ∀ v ∈ f.verts, v.id ∈ verts.map Vert.id := by
  unfold face_with_verts at hf
  cases hfind : bm.faces.find?
      (fun f => (((f.verts ++ verts).map Vert.id).dedup).length = verts.length) with
  | none => rw [hfind] at hf; exact absurd hf (by simp)
  | some g =>
    rw [hfind] at hf
    have hgf : g = f := Option.some.inj hf
    have hp := List.find?_some hfind
    rw [decide_eq_true_eq, hgf] at hp
    rw [List.map_append] at hp
    have hAB : (f.verts.map Vert.id ++ verts.map Vert.id).toFinset.card =
        (verts.map Vert.id).length := by
      rw [List.card_toFinset, hp, List.length_map]
    have hB : (verts.map Vert.id).toFinset.card = (verts.map Vert.id).length :=
      List.toFinset_card_of_nodup hnd
    have hsub : (verts.map Vert.id).toFinset =
        (f.verts.map Vert.id ++ verts.map Vert.id).toFinset := by
      refine Finset.eq_of_subset_of_card_le ?_ ?_
      · rw [List.toFinset_append]
        exact Finset.subset_union_right
      · rw [hAB, hB]
    intro v hv
    have hvm : v.id ∈ (f.verts.map Vert.id ++ verts.map Vert.id).toFinset := by
      rw [List.toFinset_append]
      exact Finset.mem_union_left _ (by simp; exact ⟨v, hv, rfl⟩)
    rw [← hsub] at hvm
    simpa using hvm

/-- C2 witness: a concrete query on `triMesh` with a duplicate-free
list satisfies the amended subset property. -/
theorem face_with_verts_subset_witness :
    (([vA, vB, vC].map Vert.id).Nodup ∧
      face_with_verts triMesh [vA, vB, vC] none = some triFace) ∧
    ∀ v ∈ triFace.verts, v.id ∈ [vA, vB, vC].map Vert.id := by
  have h1 : ([vA, vB, vC].map Vert.id).Nodup := by decide
  have h2 : face_with_verts triMesh [vA, vB, vC] none = some triFace := by decide
  exact ⟨⟨h1, h2⟩, face_with_verts_subset triMesh [vA, vB, vC] triFace h1 h2⟩

/-- C10: with no face selected, `split_quad` hits `return res` with
`res` never assigned — the model returns the `UnboundLocalError`
outcome rather than any neutral result. -/
theorem split_quad_no_selection (m : Mesh) (vertical : Bool) (cuts : ℕ)
    (h : m.faces.filter (fun f => f.select) = []) :
    (split_quad m vertical cuts).1 = .error "UnboundLocalError" := by
  simp [split_quad, h, split_quad_loop]

/-- C10 witness: `triMesh` has its only face unselected, and
`split_quad` on it yields the unbound-local error. -/
theorem split_quad_no_selection_witness :
    triMesh.faces.filter (fun f => f.select) = [] ∧
    (split_quad triMesh true 4).1 = .error "UnboundLocalError" := by
  have h : triMesh.faces.filter (fun f => f.select) = [] := by decide
  exact ⟨h, split_quad_no_selection triMesh true 4 h⟩

/-- The loop of `split_quad` records one subdivide call per snapshot
face, on the swapped edge set of that face, with the given cut count. -/
theorem split_quad_loop_trace (vertical : Bool) (cuts : ℕ) (fs : List Face) :
    ∀ (m : Mesh) (res : Option SubdivideResult) (tr : List SubdivideEntry),
      ((split_quad_loop vertical cuts fs m res tr).2.2).map (fun t => (t.edges, t.cuts)) =
        tr.map (fun t => (t.edges, t.cuts)) ++
          fs.map (fun f =>
            ((if vertical then filter_horizontal_edges f.edges f.normal
              else filter_vertical_edges f.edges f.normal), cuts)) := by
  induction fs with
  | nil => intro m res tr; simp [split_quad_loop]
  | cons f fs ih =>
    intro m res tr
    simp only [split_quad_loop]
    rw [ih]
    simp

/-- The loop of `split_quad` leaves in `res` the descriptor of the last
recorded subdivide call. -/
theorem split_quad_loop_res (vertical : Bool) (cuts : ℕ) (fs : List Face) :
    ∀ (m : Mesh) (res : Option SubdivideResult) (tr : List SubdivideEntry),
      res = (tr.getLast?).map (fun t => t.res) →
      (split_quad_loop vertical cuts fs m res tr).2.1 =
        (((split_quad_loop vertical cuts fs m res tr).2.2).getLast?).map (fun t => t.res) := by
  induction fs with
  | nil => intro m res tr h; simpa [split_quad_loop] using h
  | cons f fs ih =>
    intro m res tr _
    simp only [split_quad_loop]
    exact ih _ _ _ (by simp)

/-- The trace of `split_quad` is the loop's trace, whatever the final
match on `res` does. -/
theorem split_quad_trace_eq (m : Mesh) (vertical : Bool) (cuts : ℕ) :
    (split_quad m vertical cuts).2 =
      (split_quad_loop vertical cuts (m.faces.filter (fun f => f.select)) m none []).2.2 := by
  unfold split_quad
  cases h : (split_quad_loop vertical cuts (m.faces.filter (fun f => f.select)) m none []).2.1 <;>
    simp [h]

/-- The returned descriptor of `split_quad` is the loop's final `res`. -/
theorem split_quad_fst_eq (m : Mesh) (vertical : Bool) (cuts : ℕ) :
    ((split_quad m vertical cuts).1).toOption.map Prod.snd =
      (split_quad_loop vertical cuts (m.faces.filter (fun f => f.select)) m none []).2.1 := by
  unfold split_quad
  cases h : (split_quad_loop vertical cuts (m.faces.filter (fun f => f.select)) m none []).2.1 <;>
    simp [h, Except.toOption]

/-- C7 (amended): for every selected face, `split_quad` invokes the
subdivide primitive on the swapped edge set — the face's horizontal
edges when a vertical split is requested, its vertical edges otherwise
— passing the `cuts` parameter through (the primitive splits each edge
into `cuts`+1 segments), and the returned descriptor is the one of the
last face processed. -/
theorem split_quad_swapped_edges (m : Mesh) (vertical : Bool) (cuts : ℕ) :
    ((split_quad m vertical cuts).2).map (fun t => (t.edges, t.cuts)) =
      (m.faces.filter (fun f => f.select)).map (fun f =>
        ((if vertical then filter_horizontal_edges f.edges f.normal
          else filter_vertical_edges f.edges f.normal), cuts)) ∧
    ((split_quad m vertical cuts).1).toOption.map Prod.snd =
      (((split_quad m vertical cuts).2).getLast?).map (fun t => t.res) := by
  constructor
  · rw [split_quad_trace_eq]
    simpa using
      split_quad_loop_trace vertical cuts (m.faces.filter (fun f => f.select)) m none []
  · rw [split_quad_fst_eq, split_quad_trace_eq]
    exact split_quad_loop_res vertical cuts (m.faces.filter (fun f => f.select)) m none []
      (by simp)

/-- A vert completing a selected triangle in the XZ plane. -/
def vE : Vert := ⟨4, ⟨1, 0, 1⟩⟩

/-- A selected triangular face in the XZ plane (normal along y) whose
only flat-z edge is its bottom edge. -/
def selTriFace : Face := ⟨0, [vA, vB, vE], ⟨0, 1, 0⟩, true⟩

/-- A mesh holding just `selTriFace`. -/
def selTriMesh : Mesh := ⟨[vA, vB, vE], selTriFace.edges, [selTriFace], 5⟩

/-- C7 (counterexample): requesting a vertical split with `cuts = 2` on
the single selected face subdivides its one horizontal edge into 3
segments (2 newly created verts, 5 mesh verts in total), not into the 2
segments the claim's wording asks for. -/
theorem split_quad_cuts_ce :
    ((split_quad selTriMesh true 2).2).map
        (fun t => (t.edges.length, t.cuts, t.res.geom_inner.length)) = [(1, 2, 2)] ∧
    ((split_quad selTriMesh true 2).1).toOption.map (fun p => p.1.verts.length) = some 5 ∧
    selTriMesh.verts.length = 3 := by
  have hfil : filter_horizontal_edges selTriFace.edges selTriFace.normal = [⟨vA, vB⟩] := by
    norm_num [selTriFace, Face.edges, filter_horizontal_edges, Edge.verts,
      length_dedup_pair_eq_one, roundQ, vA, vB, vE]
  refine ⟨?_, ?_, by decide⟩ <;>
    simp [split_quad, split_quad_loop, hfil, selTriMesh, subdivide_edges, Except.toOption,
      filter_geom_verts, List.range_succ]

/-- Computation rule: `sqrtQ` on a natural number is `natSqrt`. -/
theorem sqrtQ_natCast (n : ℕ) : sqrtQ (n : ℚ) = natSqrt n := by
  simp [sqrtQ, Rat.num_natCast, Rat.den_natCast]
  norm_num [natSqrt, natSqrtAux]

/-- Evaluation rule for concrete edge lengths with a perfect-square
squared length. -/
theorem calc_length_eval (e : Edge) (n k : ℕ)
    (h : (e.a.co.sub e.b.co).normSq = (n : ℚ)) (hk : natSqrt n = k) :
    e.calc_length = (k : ℚ) := by
  rw [Edge.calc_length, h, sqrtQ_natCast, hk]

/-- Corner verts of a concrete 1×2 rectangle in the XY plane. -/
def r0 : Vert := ⟨10, ⟨0, 0, 0⟩⟩

def r1 : Vert := ⟨11, ⟨2, 0, 0⟩⟩

def r2 : Vert := ⟨12, ⟨2, 1, 0⟩⟩

def r3 : Vert := ⟨13, ⟨0, 1, 0⟩⟩

/-- A 1×2 rectangular face lying in the XY plane (normal along z):
edge lengths 2, 1, 2, 1. -/
def rFace : Face := ⟨1, [r0, r1, r2, r3], ⟨0, 0, 1⟩, false⟩

/-- A mesh holding just `rFace`. -/
def rMesh : Mesh := ⟨[r0, r1, r2, r3], rFace.edges, [rFace], 14⟩

/-- C4 (code-bug evidence): on the 1×2 rectangle `rFace` (minimum edge
length 1, maximum 2), `square_face` does return `scale_factor = 2`, but
because `calc_edge_orient` classifies the y-aligned minimum edge as
(0,0,1) the scale vector is (1,1,2), which on this flat-z face changes
nothing: the mesh comes back identical, so the edges still have lengths
[2, 1, 2, 1] instead of becoming equal. -/
theorem square_face_rect_bug :
    square_face rMesh rFace = some (2, rMesh) ∧
    rFace.edges.map Edge.calc_length = [2, 1, 2, 1] := by
  have he : rFace.edges = [⟨r0, r1⟩, ⟨r1, r2⟩, ⟨r2, r3⟩, ⟨r3, r0⟩] := by decide
  have h01 : (Edge.mk r0 r1).calc_length = 2 := by
    rw [calc_length_eval _ 4 2 (by norm_num [r0, r1, Vec3.sub, Vec3.normSq]) (by decide)]
    norm_num
  have h12 : (Edge.mk r1 r2).calc_length = 1 := by
    rw [calc_length_eval _ 1 1 (by norm_num [r1, r2, Vec3.sub, Vec3.normSq]) (by decide)]
    norm_num
  have h23 : (Edge.mk r2 r3).calc_length = 2 := by
    rw [calc_length_eval _ 4 2 (by norm_num [r2, r3, Vec3.sub, Vec3.normSq]) (by decide)]
    norm_num
  have h30 : (Edge.mk r3 r0).calc_length = 1 := by
    rw [calc_length_eval _ 1 1 (by norm_num [r3, r0, Vec3.sub, Vec3.normSq]) (by decide)]
    norm_num
  have hmap : rFace.edges.map Edge.calc_length = [2, 1, 2, 1] := by
    rw [he]
    simp [h01, h12, h23, h30]
  refine ⟨?_, hmap⟩
  have hmax : ([2, 1, 2, 1] : List ℚ).max? = some 2 := by
    norm_num [List.max?, List.foldl, max_def]
  have hmin : ([2, 1, 2, 1] : List ℚ).min? = some 1 := by
    norm_num [List.min?, List.foldl, min_def]
  have horient : calc_edge_orient ⟨r3, r0⟩ = ⟨0, 0, 1⟩ := by
    norm_num [calc_edge_orient, Edge.verts, length_dedup_pair_eq_one, roundQ, r3, r0]
  have hfc : calc_verts_median rFace.verts = ⟨1, 1/2, 0⟩ := by
    norm_num [calc_verts_median, rFace, r0, r1, r2, r3, Vec3.add, Vec3.divScalar]
  have hfilter : rFace.edges.filter (fun e => decide (e.calc_length = 1)) =
      [⟨r1, r2⟩, ⟨r3, r0⟩] := by
    rw [he]
    simp [List.filter_cons, h01, h12, h23, h30]
  have hscale : scale_verts rMesh rFace.verts ⟨1, 1, 2⟩ ⟨1, 1/2, 0⟩ = rMesh := by
    norm_num [scale_verts, Mesh.mapCo, Vert.mapIf, rMesh, rFace, Face.edges,
      r0, r1, r2, r3, Vec3.sub, Vec3.mulComp, Vec3.add, Vert.mk.injEq, Vec3.mk.injEq]
  simp only [square_face, hmap, hmax, hmin, hfilter, hfc]
  norm_num [horient, hscale, Vec3.mk.injEq]

/-- Edge lengths of a face. -/
def edge_lengths (face : Face) : List ℚ := face.edges.map Edge.calc_length

/-- The face's minimum edge length (0 by convention for an edgeless
face, which cannot occur for a real face). -/
def min_edge_length (face : Face) : ℚ := (edge_lengths face).min?.getD 0

/-- The face's maximum edge length. -/
def max_edge_length (face : Face) : ℚ := (edge_lengths face).max?.getD 0

/-- C6: for a face with at least one edge, `square_face` fails with the
division error exactly when the minimum edge length is 0, and otherwise
returns the maximum edge length divided by the minimum edge length. -/
theorem square_face_div_error_iff (bm : Mesh) (face : Face) (h : face.edges ≠ []) :
    (square_face bm face = none ↔ min_edge_length face = 0) ∧
    (min_edge_length face ≠ 0 →
      (square_face bm face).map Prod.fst =
        some (max_edge_length face / min_edge_length face)) := by
  have hne : face.edges.map Edge.calc_length ≠ [] := by
    simpa using h
  obtain ⟨M, hM⟩ : ∃ M, (face.edges.map Edge.calc_length).max? = some M := by
    cases hmx : (face.edges.map Edge.calc_length).max? with
    | none => exact absurd (List.max?_eq_none_iff.mp hmx) hne
    | some M => exact ⟨M, rfl⟩
  obtain ⟨mn, hmn⟩ : ∃ mn, (face.edges.map Edge.calc_length).min? = some mn := by
    cases hmx : (face.edges.map Edge.calc_length).min? with
    | none => exact absurd (List.min?_eq_none_iff.mp hmx) hne
    | some mn => exact ⟨mn, rfl⟩
  have hminD : min_edge_length face = mn := by
    rw [min_edge_length, edge_lengths, hmn]
    rfl
  have hmaxD : max_edge_length face = M := by
    rw [max_edge_length, edge_lengths, hM]
    rfl
  by_cases h0 : mn = 0
  · constructor
    · simp [square_face, hM, hmn, h0, hminD]
    · intro hmin0
      exact absurd (hminD.trans h0) hmin0
  · have hmm : mn ∈ face.edges.map Edge.calc_length :=
      List.min?_mem (fun a b => min_choice a b) hmn
    obtain ⟨e, he, hle⟩ : ∃ e ∈ face.edges, e.calc_length = mn := by
      simpa using hmm
    have hfil : e ∈ face.edges.filter (fun e => decide (e.calc_length = mn)) :=
      List.mem_filter.mpr ⟨he, by simp [hle]⟩
    have hfne : face.edges.filter (fun e => decide (e.calc_length = mn)) ≠ [] := by
      intro hnil
      rw [hnil] at hfil
      exact absurd hfil (List.not_mem_nil e)
    obtain ⟨me, hme⟩ : ∃ me,
        (face.edges.filter (fun e => decide (e.calc_length = mn))).getLast? = some me := by
      cases hgl : (face.edges.filter (fun e => decide (e.calc_length = mn))).getLast? with
      | none => exact absurd (List.getLast?_eq_none_iff.mp hgl) hfne
      | some me => exact ⟨me, rfl⟩
    constructor
    · simp [square_face, hM, hmn, h0, hme, hminD]
    · intro _
      simp [square_face, hM, hmn, h0, hme, hminD, hmaxD]

/-- C6 witness: the triangle face has edges, a non-zero minimum edge
length, and `square_face` on it satisfies the error-iff property. -/
theorem square_face_div_error_iff_witness :
    triFace.edges ≠ [] ∧
    ((square_face triMesh triFace = none ↔ min_edge_length triFace = 0) ∧
      (min_edge_length triFace ≠ 0 →
        (square_face triMesh triFace).map Prod.fst =
          some (max_edge_length triFace / min_edge_length triFace))) := by
  have h : triFace.edges ≠ [] := by decide
  exact ⟨h, square_face_div_error_iff triMesh triFace h⟩

/-- Both tripled ratios at or above the scale constant take the
skip-both path: deselect the face and return it, no primitive invoked. -/
theorem split_skip_of_ge (bm : Mesh) (face : Face)
    (svertical shorizontal offx offy offz : ℚ)
    (h1 : 3 ≤ svertical * 3) (h2 : 3 ≤ shorizontal * 3) :
    split bm face svertical shorizontal offx offy offz =
      ⟨deselect_face bm face.id, .ok (some { face with select := false }), []⟩ := by
  simp only [split]
  rw [if_pos ⟨not_lt.mpr h2, not_lt.mpr h1⟩]

/-- C5: `split` with both ratios equal to the scale constant 3 is a
pure pass-through — the input face is returned with its selection flag
cleared, no primitive is invoked, and the mesh is unchanged except for
that flag (verts, edges untouched; faces mapped only on `select`). -/
theorem split_skip_both (bm : Mesh) (face : Face) (offx offy offz : ℚ) :
    split bm face 3 3 offx offy offz =
      ⟨deselect_face bm face.id, .ok (some { face with select := false }), []⟩ ∧
    (deselect_face bm face.id).verts = bm.verts ∧
    (deselect_face bm face.id).edges = bm.edges ∧
    (deselect_face bm face.id).faces =
      bm.faces.map (fun f => if f.id = face.id then { f with select := false } else f) :=
  ⟨split_skip_of_ge bm face 3 3 offx offy offz (by norm_num) (by norm_num), rfl, rfl, rfl⟩

/-- The fourth corner of a unit quad in the XZ plane. -/
def vU : Vert := ⟨3, ⟨0, 0, 1⟩⟩

/-- A unit quad face in the XZ plane (normal along −y), selected. -/
def uFace : Face := ⟨0, [vA, vB, vE, vU], ⟨0, -1, 0⟩, true⟩

/-- A mesh holding just `uFace`. -/
def uMesh : Mesh := ⟨[vA, vB, vE, vU], uFace.edges, [uFace], 5⟩

/-- C1 (counterexample): on the unit quad, `split` with
`svertical = shorizontal = 1.5` and zero offsets does NOT carve an
inner sub-face — the ratios are tripled before the comparison with the
scale constant (1.5·3 = 4.5 ≥ 3), so both passes are skipped: the
returned face is the original one (same verts), no primitive ran, and
its width and height are still (1, 1), not reduced. -/
theorem split_unit_quad_ce :
    (split uMesh uFace (3/2) (3/2) 0 0 0).result =
      .ok (some { uFace with select := false }) ∧
    ({ uFace with select := false } : Face).verts = uFace.verts ∧
    (split uMesh uFace (3/2) (3/2) 0 0 0).trace = [] ∧
    calc_face_dimensions uFace = (1, 1) := by
  have hs := split_skip_of_ge uMesh uFace (3/2) (3/2) 0 0 0 (by norm_num) (by norm_num)
  refine ⟨by rw [hs], rfl, by rw [hs], ?_⟩
  norm_num [calc_face_dimensions, uFace, vA, vB, vE, vU, List.max?, List.min?,
    List.foldl, max_def, min_def]

/-- C1 (amended): `split` with `svertical = shorizontal = 1.5` skips
BOTH axis insets on every face (the code triples the ratios before
comparing them with the scale constant 3, so a pass runs only for a
ratio below 1) and returns the original face deselected, with no
mutation primitive invoked. -/
theorem split_ratio_below_scale_skips (bm : Mesh) (face : Face) (offx offy offz : ℚ) :
    split bm face (3/2) (3/2) offx offy offz =
      ⟨deselect_face bm face.id, .ok (some { face with select := false }), []⟩ :=
  split_skip_of_ge bm face (3/2) (3/2) offx offy offz (by norm_num) (by norm_num)

/-- C9: whenever the vertical pass runs, `remove_doubles` is invoked on
every vert of the whole mesh: when the horizontal pass did not run it
is the very first primitive invoked, applied to all of `bm.verts` (not
only the face's verts); when the horizontal pass also ran, it is
invoked on the entire vertex list of the post-horizontal-pass mesh. -/
theorem split_vertical_merges_whole_mesh (bm : Mesh) (face : Face)
    (svertical shorizontal offx offy offz : ℚ) (hv : svertical * 3 < 3) :
    (¬ shorizontal * 3 < 3 →
      (split bm face svertical shorizontal offx offy offz).trace.head? =
        some (Op.removeDoubles bm.verts)) ∧
    (shorizontal * 3 < 3 →
      Op.removeDoubles (split_h_stage (deselect_face bm face.id)
          { face with select := false } (shorizontal * 3)
          (calc_verts_median face.verts)).1.verts
        ∈ (split bm face svertical shorizontal offx offy offz).trace) := by
  constructor
  · intro hh
    simp [split, split_offsets, hh, hv, deselect_face]
  · intro hh
    simp only [split, hv, hh, if_pos, if_neg, if_true, if_false]
    cases hfv : face_with_verts
        (remove_doubles (split_h_stage (deselect_face bm face.id)
            { face with select := false } (shorizontal * 3)
            (calc_verts_median face.verts)).1
          (split_h_stage (deselect_face bm face.id)
            { face with select := false } (shorizontal * 3)
            (calc_verts_median face.verts)).1.verts)
        (split_h_stage (deselect_face bm face.id)
          { face with select := false } (shorizontal * 3)
          (calc_verts_median face.verts)).2.1
        none with
    | none => simp [hfv]
    | some f1 =>
      simp [hfv, split_offsets]

/-- C9 witness: a vertical-only split (`svertical = 0.5`,
`shorizontal = 2`) on the unit-quad mesh starts by merging the whole
mesh's vertex list. -/
theorem split_vertical_merges_whole_mesh_witness :
    ((1 : ℚ) / 2) * 3 < 3 ∧ ¬ ((2 : ℚ) * 3 < 3) ∧
    (split uMesh uFace (1/2) 2 0 0 0).trace.head? =
      some (Op.removeDoubles uMesh.verts) := by
  refine ⟨by norm_num, by norm_num, ?_⟩
  exact (split_vertical_merges_whole_mesh uMesh uFace (1/2) 2 0 0 0
    (by norm_num)).1 (by norm_num)

end UtilMesh
